import Mathlib

/-!
Verification of `flac_directory.py`, a batch WAV/FLAC conversion utility.

The program walks a directory, matches files by extension (`.wav` or
`.flac` depending on direction), computes a destination path by swapping
the extension, and for each file either skips it (destination exists and
is newer, or the invoker's own existence guard fires), converts it by
invoking ffmpeg as a subprocess, or counts an error.  Counters and byte
totals are accumulated and reported.

The embedding below models:
 * file names as `List Char`, with faithful translations of Python
   `pathlib`'s `suffix`, `stem` and `with_suffix` (which the code uses
   via `source_file.with_suffix(target_ext)`);
 * the filesystem as a list of files (path, mtime, size), with lookup,
   existence, creation and removal;
 * the external ffmpeg process as a deterministic oracle (`World.tool`)
   returning exit status, whether stderr contains the
   "already exists. Exiting." refusal text, and its effect on the
   destination file; `subprocess.run` raising is modelled by
   `ToolResult.raises` (caught by `convert_file`'s `try`/`except`);
 * `Path.mkdir(parents=True, exist_ok=True)` failures by the oracle
   `World.mkdirFails` — the call at line 150 of the source is *not*
   inside a `try` block, so a failure there propagates out of
   `process_directory` (modelled as `Except.error`), which in Python
   aborts the run with an unhandled exception;
 * `Path.unlink` failures by `World.unlinkFails` (caught by the source's
   `try`/`except` around deletion).

`source_file.stat()` inside the loop is read from the discovery snapshot:
a source file's own record is never modified before its own iteration
(conversions only create files with the *target* extension, and deletion
only removes the file being processed), so the fresh stat of the source
equals the snapshot.  Output-file stats are always read from the current
filesystem state, which does change during the run.
-/

namespace FlacDir

/-- Characters of the ".wav" extension. -/
def wavExt : List Char := ['.', 'w', 'a', 'v']

/-- Characters of the ".flac" extension. -/
def flacExt : List Char := ['.', 'f', 'l', 'a', 'c']

/-- Index of the last '.' in a file name, if any (Python `str.rfind('.')`
when the result is interpreted as an `Option`). -/
def rfindDot : List Char → Option Nat
  | [] => none
  | c :: cs =>
    match rfindDot cs with
    | some i => some (i + 1)
    | none => if c = '.' then some 0 else none

/-- Python `pathlib.PurePath.suffix` on a file name: the part from the last
dot, unless the dot is the first character or there is no dot (then empty).
Mirrors pathlib's `0 < i < len(name) - 1` test. -/
def pySuffix (name : List Char) : List Char :=
  match rfindDot name with
  | some i => if 0 < i ∧ i < name.length - 1 then name.drop i else []
  | none => []

/-- Python `pathlib.PurePath.stem`: the name without its suffix. -/
def pyStem (name : List Char) : List Char :=
  name.take (name.length - (pySuffix name).length)

/-- Python `pathlib.PurePath.with_suffix`: `name[:-len(old_suffix)] + s`
when the old suffix is nonempty, `name + s` otherwise — in both cases
this is `stem ++ s`. -/
def pyWithSuffix (name s : List Char) : List Char :=
  pyStem name ++ s

/-- A directory path: components below the input root. -/
abbrev DirPath := List String

/-- A file path: directory and file name. -/
abbrev FPath := DirPath × List Char

/-- An entry of the modelled filesystem. -/
structure FSFile where
  dir : DirPath
  name : List Char
  mtime : Nat
  size : Nat
deriving DecidableEq

/-- The path of a filesystem entry. -/
def FSFile.path (f : FSFile) : FPath := (f.dir, f.name)

/-- Lookup a file by path (first match); models `Path.stat()`. -/
def fsLookup (fs : List FSFile) (p : FPath) : Option FSFile :=
  fs.find? (fun f => decide (f.path = p))

/-- Models `Path.exists()`. -/
def fsExists (fs : List FSFile) (p : FPath) : Bool :=
  (fsLookup fs p).isSome

/-- Remove every entry at path `p`; models `Path.unlink()`. -/
def fsRemove (fs : List FSFile) (p : FPath) : List FSFile :=
  fs.filter (fun f => !(decide (f.path = p)))

/-- Create or overwrite the file at `f`'s path (ffmpeg writing output). -/
def fsInsert (fs : List FSFile) (f : FSFile) : List FSFile :=
  fsRemove fs f.path ++ [f]

/-- Outcome of one ffmpeg subprocess invocation, as observed by
`convert_file`: whether `subprocess.run` raised, the exit status,
whether the captured stderr contains "already exists. Exiting.",
whether a failing run left a (possibly incomplete) output file behind,
and the size of the output file it writes. -/
structure ToolResult where
  raises : Bool
  returncode : Nat
  stderrHasExistsMsg : Bool
  failCreatesOutput : Bool
  outputSize : Nat
deriving DecidableEq

/-- The environment of one run: input-directory validity, ffmpeg
availability at startup, the initial filesystem, the deterministic
behaviour of the external tool as a function of the command line it is
given (input path, output path, direction flag, overwrite flag), which
directories `mkdir` raises on, which paths `unlink` raises on, and the
modification time stamped on files created during the run. -/
structure World where
  inputDirValid : Bool
  ffmpegAvailable : Bool
  files : List FSFile
  tool : FPath → FPath → Bool → Bool → ToolResult
  mkdirFails : DirPath → Bool
  unlinkFails : FPath → Bool
  clock : Nat

/-- The command-line flags of one run (lines 220-227 of the source). -/
structure Config where
  recursive : Bool
  to_wav : Bool
  delete_original : Bool
  overwrite : Bool
deriving DecidableEq

/-- Line 111: `source_ext = ".flac" if to_wav else ".wav"`. -/
def Config.source_ext (cfg : Config) : List Char :=
  if cfg.to_wav then flacExt else wavExt

/-- Line 112: `target_ext = ".wav" if to_wav else ".flac"`. -/
def Config.target_ext (cfg : Config) : List Char :=
  if cfg.to_wav then wavExt else flacExt

/-- Lines 114-118: file discovery.  `glob(f"*{ext}")` matches exactly the
names ending in `ext` in the immediate directory; `glob(f"**/*{ext}")`
matches them at any depth. -/
def discover (cfg : Config) (files : List FSFile) : List FSFile :=
  if cfg.recursive then
    files.filter (fun f => decide (cfg.source_ext <:+ f.name))
  else
    files.filter (fun f => f.dir.isEmpty && decide (cfg.source_ext <:+ f.name))

/-- Result of `convert_file`: the returned boolean, the filesystem after
the call, and whether the ffmpeg subprocess was spawned at all. -/
structure ConvertResult where
  ok : Bool
  fs : List FSFile
  invoked : Bool
deriving DecidableEq

/-- Lines 28-88 of the source, `convert_file`.  The guard at line 42
returns `False` before the command line is built whenever the output
exists and overwrite is off.  Otherwise the subprocess runs: a raise is
caught (lines 86-88, returns `False`); a nonzero exit status returns
`False` whether or not stderr contains the refusal text (lines 75-83 —
the text only selects which message is printed); exit status 0 returns
`True` with the output file written. -/
def convert_file (w : World) (fs : List FSFile) (input_file output_file : FPath)
    (to_wav overwrite : Bool) : ConvertResult :=
  if fsExists fs output_file && !overwrite then
    { ok := false, fs := fs, invoked := false }
  else
    let r := w.tool input_file output_file to_wav overwrite
    if r.raises then
      { ok := false, fs := fs, invoked := true }
    else if r.returncode != 0 then
      { ok := false
        fs := if r.failCreatesOutput then
                fsInsert fs
                  { dir := output_file.1, name := output_file.2
                    mtime := w.clock, size := r.outputSize }
              else fs
        invoked := true }
    else
      { ok := true
        fs := fsInsert fs
                { dir := output_file.1, name := output_file.2
                  mtime := w.clock, size := r.outputSize }
        invoked := true }

/-- The counters of lines 125-131 of the source. -/
structure Stats where
  success_count : Nat
  skipped_count : Nat
  error_count : Nat
  total_input_size : Nat
  total_output_size : Nat
deriving DecidableEq

/-- All counters start at zero. -/
def Stats.init : Stats :=
  { success_count := 0, skipped_count := 0, error_count := 0
    total_input_size := 0, total_output_size := 0 }

/-- State threaded through the traversal loop: the counters, the current
filesystem, and the list of source paths for which an ffmpeg subprocess
was actually spawned. -/
structure LoopState where
  stats : Stats
  fs : List FSFile
  calls : List FPath
deriving DecidableEq

/-- Line 137: `output_file = source_file.with_suffix(target_ext)`. -/
def outputPath (f : FSFile) (target_ext : List Char) : FPath :=
  (f.dir, pyWithSuffix f.name target_ext)

/-- Lines 135-173 of the source: the body of the traversal loop for one
source file.  `Except.error` models the uncaught exception raised by
`output_file.parent.mkdir(...)` at line 150 (the only statement of the
body outside every `try` block that can raise in this model). -/
def processFile (w : World) (cfg : Config) (st : LoopState) (sf : FSFile) :
    Except Unit LoopState :=
  let output_file := outputPath sf cfg.target_ext
  let input_size := sf.size
  if !cfg.overwrite && fsExists st.fs output_file &&
      decide (((fsLookup st.fs output_file).map FSFile.mtime).getD 0 > sf.mtime) then
    Except.ok { st with stats := { st.stats with skipped_count := st.stats.skipped_count + 1 } }
  else if w.mkdirFails sf.dir then
    Except.error ()
  else
    let r := convert_file w st.fs sf.path output_file cfg.to_wav cfg.overwrite
    let calls' := if r.invoked then st.calls ++ [sf.path] else st.calls
    if r.ok then
      let stats' := { st.stats with
        success_count := st.stats.success_count + 1
        total_input_size := st.stats.total_input_size + input_size
        total_output_size :=
          st.stats.total_output_size + ((fsLookup r.fs output_file).map FSFile.size).getD 0 }
      if cfg.delete_original && fsExists r.fs output_file then
        if w.unlinkFails sf.path then
          Except.ok { stats := stats', fs := r.fs, calls := calls' }
        else
          Except.ok { stats := stats', fs := fsRemove r.fs sf.path, calls := calls' }
      else
        Except.ok { stats := stats', fs := r.fs, calls := calls' }
    else
      if fsExists r.fs output_file && !cfg.overwrite then
        Except.ok { stats := { st.stats with skipped_count := st.stats.skipped_count + 1 }
                    fs := r.fs, calls := calls' }
      else
        Except.ok { stats := { st.stats with error_count := st.stats.error_count + 1 }
                    fs := r.fs, calls := calls' }

/-- The traversal loop over the discovered source files. -/
def runLoop (w : World) (cfg : Config) : List FSFile → LoopState → Except Unit LoopState
  | [], st => Except.ok st
  | sf :: rest, st =>
    match processFile w cfg st sf with
    | Except.error e => Except.error e
    | Except.ok st' => runLoop w cfg rest st'

/-- Observable outcome of `process_directory`: the early return for an
invalid input directory (lines 106-108), the early return when no
source files match (lines 120-122), normal completion of the loop with
its final counters, or an abort by an uncaught exception. -/
inductive PDResult where
  | invalidDir : PDResult
  | noFiles : PDResult
  | completed (stats : Stats) (fs : List FSFile) (sources : List FSFile) : PDResult
  | aborted : PDResult
deriving DecidableEq

/-- Lines 91-210 of the source, `process_directory`. -/
def process_directory (w : World) (cfg : Config) : PDResult :=
  if !w.inputDirValid then PDResult.invalidDir
  else
    let sources := discover cfg w.files
    if sources.isEmpty then PDResult.noFiles
    else
      match runLoop w cfg sources { stats := Stats.init, fs := w.files, calls := [] } with
      | Except.ok st => PDResult.completed st.stats st.fs sources
      | Except.error _ => PDResult.aborted

/-- Lines 219-238 of the source, `main`, reduced to the process exit
status.  A missing `input_dir` exits 1 (line 231); an unavailable ffmpeg
exits 1 (line 235); otherwise `process_directory` runs and `main`
returns normally — exit status 0 — unless an exception escaped it, in
which case the interpreter exits 1 with a traceback. -/
def main_exit_code (input_dir_given : Bool) (w : World) (cfg : Config) : Nat :=
  if !input_dir_given then 1
  else if !w.ffmpegAvailable then 1
  else
    match process_directory w cfg with
    | PDResult.aborted => 1
    | _ => 0

/-- Python division, which raises `ZeroDivisionError` at zero. -/
def pyDiv (a b : ℚ) : Option ℚ :=
  if b = 0 then none else some (a / b)

/-- Line 202 of the source:
`ratio = total_output_size / total_input_size if total_input_size > 0 else 0`. -/
def compressionQuotient (st : Stats) : Option ℚ :=
  if st.total_input_size > 0 then
    pyDiv (st.total_output_size : ℚ) (st.total_input_size : ℚ)
  else some 0

/-! ### Filesystem lemmas -/

theorem fsLookup_fsRemove_self (fs : List FSFile) (p : FPath) :
    fsLookup (fsRemove fs p) p = none := by
  rw [fsLookup, List.find?_eq_none]
  intro f hf
  rw [fsRemove, List.mem_filter] at hf
  simpa using hf.2

theorem fsLookup_fsRemove_ne (fs : List FSFile) {p q : FPath} (h : p ≠ q) :
    fsLookup (fsRemove fs q) p = fsLookup fs p := by
  induction fs with
  | nil => rfl
  | cons g gs ih =>
    rw [fsRemove, List.filter_cons]
    by_cases hgq : g.path = q
    · have hgp : ¬ g.path = p := by
        intro hp
        exact h (hp ▸ hgq ▸ rfl)
      rw [if_neg (by simp [hgq])]
      rw [show fsLookup (g :: gs) p = fsLookup gs p by
        rw [fsLookup, List.find?_cons_of_neg _ (by simpa using hgp)]; rfl]
      exact ih
    · by_cases hgp : g.path = p
      · rw [if_pos (by simp [hgq])]
        rw [fsLookup, List.find?_cons_of_pos _ (by simpa using hgp)]
        rw [fsLookup, List.find?_cons_of_pos _ (by simpa using hgp)]
      · rw [if_pos (by simp [hgq])]
        rw [fsLookup, List.find?_cons_of_neg _ (by simpa using hgp)]
        rw [fsLookup, List.find?_cons_of_neg _ (by simpa using hgp)]
        exact ih

theorem fsLookup_fsInsert (fs : List FSFile) (f : FSFile) (p : FPath) :
    fsLookup (fsInsert fs f) p = if p = f.path then some f else fsLookup fs p := by
  rw [fsInsert, fsLookup, List.find?_append]
  by_cases hp : p = f.path
  · subst hp
    have h1 := fsLookup_fsRemove_self fs f.path
    simp only [fsLookup] at h1
    rw [h1, if_pos rfl]
    simp [List.find?]
  · have h1 := fsLookup_fsRemove_ne fs hp
    simp only [fsLookup] at h1
    rw [h1, if_neg hp]
    have h2 : List.find? (fun g => decide (g.path = p)) [f] = none := by
      rw [List.find?_eq_none]
      intro x hx h
      rw [List.mem_singleton] at hx
      subst hx
      exact hp (of_decide_eq_true h).symm
    rw [h2, Option.or_none]
    rfl

theorem fsExists_fsInsert (fs : List FSFile) (f : FSFile) (p : FPath) :
    fsExists (fsInsert fs f) p = (decide (p = f.path) || fsExists fs p) := by
  rw [fsExists, fsLookup_fsInsert]
  by_cases hp : p = f.path <;> simp [hp, fsExists]

theorem fsExists_fsRemove (fs : List FSFile) (p q : FPath) :
    fsExists (fsRemove fs q) p = (decide (p ≠ q) && fsExists fs p) := by
  by_cases hp : p = q
  · subst hp
    simp [fsExists, fsLookup_fsRemove_self]
  · simp [fsExists, fsLookup_fsRemove_ne fs hp, hp]

theorem mem_fsRemove {fs : List FSFile} {q : FPath} {x : FSFile}
    (h : x ∈ fsRemove fs q) : x ∈ fs := by
  rw [fsRemove, List.mem_filter] at h
  exact h.1

theorem mem_fsInsert {fs : List FSFile} {f x : FSFile}
    (h : x ∈ fsInsert fs f) : x ∈ fs ∨ x = f := by
  rw [fsInsert, List.mem_append] at h
  rcases h with h | h
  · exact Or.inl (mem_fsRemove h)
  · rw [List.mem_singleton] at h
    exact Or.inr h

theorem fsLookup_isSome_iff (fs : List FSFile) (p : FPath) :
    (fsLookup fs p).isSome = true ↔ ∃ g, fsLookup fs p = some g := by
  cases h : fsLookup fs p <;> simp

theorem fsLookup_path {fs : List FSFile} {p : FPath} {g : FSFile}
    (h : fsLookup fs p = some g) : g.path = p ∧ g ∈ fs := by
  rw [fsLookup] at h
  constructor
  · have := List.find?_some h
    exact of_decide_eq_true this
  · exact List.mem_of_find?_eq_some h

/-! ### Name, suffix and extension lemmas -/

theorem rfindDot_eq_none_of_no_dot : ∀ {t : List Char}, '.' ∉ t → rfindDot t = none := by
  intro t ht
  induction t with
  | nil => rfl
  | cons c cs ih =>
    rw [List.mem_cons, not_or] at ht
    have hc : ¬ c = '.' := fun h => ht.1 h.symm
    simp [rfindDot, ih ht.2, hc]

theorem rfindDot_append_dot (xs t : List Char) (ht : '.' ∉ t) :
    rfindDot (xs ++ '.' :: t) = some xs.length := by
  induction xs with
  | nil => simp [rfindDot, rfindDot_eq_none_of_no_dot ht]
  | cons x xs ih => simp [rfindDot, ih]

theorem pySuffix_append_ext (xs t : List Char) (hxs : xs ≠ []) (ht : t ≠ []) (hd : '.' ∉ t) :
    pySuffix (xs ++ '.' :: t) = '.' :: t := by
  rw [pySuffix, rfindDot_append_dot xs t hd]
  have hcond : 0 < xs.length ∧ xs.length < (xs ++ '.' :: t).length - 1 := by
    have h1 : 0 < t.length := List.length_pos.mpr ht
    constructor
    · exact List.length_pos.mpr hxs
    · simp [List.length_append]
      omega
  dsimp only
  rw [if_pos hcond, List.drop_left]

theorem pyStem_append_ext (xs t : List Char) (hxs : xs ≠ []) (ht : t ≠ []) (hd : '.' ∉ t) :
    pyStem (xs ++ '.' :: t) = xs := by
  rw [pyStem, pySuffix_append_ext xs t hxs ht hd]
  have h3 : (xs ++ '.' :: t).length - ('.' :: t).length = xs.length := by
    simp [List.length_append]
  rw [h3, List.take_left]

theorem pySuffix_length_lt {n : List Char} (hn : n ≠ []) : (pySuffix n).length < n.length := by
  have hn0 : 0 < n.length := List.length_pos.mpr hn
  rw [pySuffix]
  cases h : rfindDot n with
  | none => simpa using hn0
  | some i =>
    dsimp only
    by_cases hc : 0 < i ∧ i < n.length - 1
    · rw [if_pos hc]
      simp [List.length_drop]
      omega
    · rw [if_neg hc]
      simpa using hn0

theorem pyStem_ne_nil {n : List Char} (hn : n ≠ []) : pyStem n ≠ [] := by
  have h := pySuffix_length_lt hn
  rw [pyStem]
  apply List.ne_nil_of_length_pos
  rw [List.length_take]
  omega

theorem pySuffix_pyWithSuffix (n t : List Char) (hn : n ≠ []) (ht : t ≠ []) (hd : '.' ∉ t) :
    pySuffix (pyWithSuffix n ('.' :: t)) = '.' :: t := by
  rw [pyWithSuffix]
  exact pySuffix_append_ext _ _ (pyStem_ne_nil hn) ht hd

theorem pyStem_pyWithSuffix (n t : List Char) (hn : n ≠ []) (ht : t ≠ []) (hd : '.' ∉ t) :
    pyStem (pyWithSuffix n ('.' :: t)) = pyStem n := by
  rw [pyWithSuffix]
  exact pyStem_append_ext _ _ (pyStem_ne_nil hn) ht hd

theorem suffix_pyWithSuffix (n s : List Char) : s <:+ pyWithSuffix n s :=
  List.suffix_append _ _

theorem wav_flac_excl {n : List Char} (h1 : wavExt <:+ n) (h2 : flacExt <:+ n) : False := by
  obtain ⟨p1, e1⟩ := h1
  obtain ⟨p2, e2⟩ := h2
  have e3 : p1 ++ wavExt = p2 ++ flacExt := e1.trans e2.symm
  have e4 := congrArg List.reverse e3
  simp [wavExt, flacExt, List.reverse_append] at e4

theorem source_target_excl (cfg : Config) {n : List Char}
    (h1 : cfg.source_ext <:+ n) (h2 : cfg.target_ext <:+ n) : False := by
  cases hcw : cfg.to_wav
  · simp only [Config.source_ext, Config.target_ext, hcw, Bool.false_eq_true,
      if_false] at h1 h2
    exact wav_flac_excl h1 h2
  · simp only [Config.source_ext, Config.target_ext, hcw, if_true] at h1 h2
    exact wav_flac_excl h2 h1

theorem target_ext_shape (cfg : Config) :
    ∃ t, cfg.target_ext = '.' :: t ∧ t ≠ [] ∧ '.' ∉ t := by
  cases h : cfg.to_wav
  · exact ⟨['f', 'l', 'a', 'c'], by simp [Config.target_ext, h, flacExt], by decide, by decide⟩
  · exact ⟨['w', 'a', 'v'], by simp [Config.target_ext, h, wavExt], by decide, by decide⟩

theorem source_ext_ne_nil (cfg : Config) : cfg.source_ext ≠ [] := by
  cases h : cfg.to_wav <;> simp [Config.source_ext, h, wavExt, flacExt]

theorem ne_nil_of_source_suffix (cfg : Config) {n : List Char}
    (h : cfg.source_ext <:+ n) : n ≠ [] := by
  obtain ⟨p, rfl⟩ := h
  intro hnil
  exact source_ext_ne_nil cfg (List.append_eq_nil.mp hnil).2

theorem target_suffix_output (cfg : Config) (n : List Char) :
    cfg.target_ext <:+ pyWithSuffix n cfg.target_ext :=
  suffix_pyWithSuffix n _

theorem source_not_suffix_output (cfg : Config) (n : List Char) :
    ¬ cfg.source_ext <:+ pyWithSuffix n cfg.target_ext :=
  fun h => source_target_excl cfg h (target_suffix_output cfg n)

/-! ### Per-step and loop lemmas -/

theorem processFile_outcomes {w : World} {cfg : Config} {st : LoopState} {sf : FSFile}
    {st' : LoopState} (h : processFile w cfg st sf = Except.ok st') :
    st'.stats.success_count + st'.stats.skipped_count + st'.stats.error_count =
      st.stats.success_count + st.stats.skipped_count + st.stats.error_count + 1 := by
  simp only [processFile] at h
  split at h
  · simp only [Except.ok.injEq] at h
    subst h
    simp
    omega
  · split at h
    · exact absurd h (by simp)
    · split at h
      · split at h
        · split at h
          · simp only [Except.ok.injEq] at h
            subst h
            simp
            omega
          · simp only [Except.ok.injEq] at h
            subst h
            simp
            omega
        · simp only [Except.ok.injEq] at h
          subst h
          simp
          omega
      · split at h
        · simp only [Except.ok.injEq] at h
          subst h
          simp
          omega
        · simp only [Except.ok.injEq] at h
          subst h
          simp
          omega

theorem runLoop_outcomes {w : World} {cfg : Config} :
    ∀ {l : List FSFile} {st st' : LoopState}, runLoop w cfg l st = Except.ok st' →
      st'.stats.success_count + st'.stats.skipped_count + st'.stats.error_count =
        st.stats.success_count + st.stats.skipped_count + st.stats.error_count + l.length := by
  intro l
  induction l with
  | nil =>
    intro st st' h
    rw [runLoop] at h
    simp only [Except.ok.injEq] at h
    subst h
    simp
  | cons sf rest ih =>
    intro st st' h
    rw [runLoop] at h
    cases hp : processFile w cfg st sf with
    | error e => rw [hp] at h; exact absurd h (by simp)
    | ok st₁ =>
      rw [hp] at h
      have h1 := processFile_outcomes hp
      have h2 := ih h
      simp only [List.length_cons]
      omega

theorem process_directory_completed {w : World} {cfg : Config} {stats : Stats}
    {fs sources : List FSFile}
    (h : process_directory w cfg = PDResult.completed stats fs sources) :
    w.inputDirValid = true ∧ sources = discover cfg w.files ∧ sources ≠ [] ∧
    ∃ stEnd : LoopState,
      runLoop w cfg sources { stats := Stats.init, fs := w.files, calls := [] } =
          Except.ok stEnd ∧
        stats = stEnd.stats ∧ fs = stEnd.fs := by
  simp only [process_directory] at h
  split at h
  · exact absurd h (by simp)
  next hvalid =>
    split at h
    · exact absurd h (by simp)
    next hne =>
      split at h
      next stEnd hrun =>
        simp only [PDResult.completed.injEq] at h
        obtain ⟨h1, h2, h3⟩ := h
        subst h1
        subst h2
        subst h3
        refine ⟨?_, rfl, ?_, stEnd, hrun, rfl, rfl⟩
        · simpa using hvalid
        · intro hnil
          rw [hnil] at hne
          simp at hne
      next => exact absurd h (by simp)

/-- Claim C1: for every run that passes input validation and discovers at
least one source file, the final counters satisfy
`converted + skipped + error = number of discovered source files`. -/
theorem C1_counters_partition (w : World) (cfg : Config) (stats : Stats)
    (fs sources : List FSFile)
    (h : process_directory w cfg = PDResult.completed stats fs sources) :
    stats.success_count + stats.skipped_count + stats.error_count = sources.length := by
  obtain ⟨hv, hsrc, hne, stEnd, hrun, hstats, hfs⟩ := process_directory_completed h
  subst hstats
  have h1 := runLoop_outcomes hrun
  simpa [Stats.init] using h1

/-- A concrete one-file world in which ffmpeg succeeds. -/
def demoFile : FSFile :=
  { dir := [], name := ['a', '.', 'w', 'a', 'v'], mtime := 5, size := 100 }

/-- The `.flac` file the demo conversion writes. -/
def demoOut : FSFile :=
  { dir := [], name := ['a', '.', 'f', 'l', 'a', 'c'], mtime := 9, size := 40 }

/-- A tool oracle that always succeeds with a 40-byte output. -/
def demoToolOk : FPath → FPath → Bool → Bool → ToolResult :=
  fun _ _ _ _ =>
    { raises := false, returncode := 0, stderrHasExistsMsg := false
      failCreatesOutput := false, outputSize := 40 }

/-- A world with one `.wav` file and a succeeding tool. -/
def demoWorld : World :=
  { inputDirValid := true, ffmpegAvailable := true, files := [demoFile]
    tool := demoToolOk, mkdirFails := fun _ => false
    unlinkFails := fun _ => false, clock := 9 }

/-- Default flags: non-recursive WAV→FLAC, no deletion, no overwrite. -/
def demoConfig : Config :=
  { recursive := false, to_wav := false, delete_original := false, overwrite := false }

/-- Witness for C1 at a concrete world: one file discovered, one converted. -/
theorem C1_counters_partition_witness :
    process_directory demoWorld demoConfig = PDResult.completed
        { success_count := 1, skipped_count := 0, error_count := 0
          total_input_size := 100, total_output_size := 40 }
        [demoFile, demoOut] [demoFile] ∧
      (1 : Nat) + 0 + 0 = [demoFile].length :=
  ⟨by decide,
    C1_counters_partition demoWorld demoConfig
      { success_count := 1, skipped_count := 0, error_count := 0
        total_input_size := 100, total_output_size := 40 }
      [demoFile, demoOut] [demoFile] (by decide)⟩

/-- Claim C9: whenever the destination file exists and overwrite is
disabled, `convert_file` returns failure at its guard, before building
the command line, so the ffmpeg subprocess is never spawned — whatever
the modification times are (the guard never reads them). -/
theorem C9_guard_no_subprocess (w : World) (fs : List FSFile)
    (input_file output_file : FPath) (to_wav : Bool)
    (h : fsExists fs output_file = true) :
    convert_file w fs input_file output_file to_wav false =
      { ok := false, fs := fs, invoked := false } := by
  simp only [convert_file]
  rw [if_pos]
  simp [h]

/-- Witness for C9: a destination that exists, and is even older than the
source, still short-circuits the invoker. -/
theorem C9_guard_no_subprocess_witness :
    fsExists [demoOut] demoOut.path = true ∧
      convert_file demoWorld [demoOut] demoFile.path demoOut.path false false =
        { ok := false, fs := [demoOut], invoked := false } :=
  ⟨by decide,
    C9_guard_no_subprocess demoWorld [demoOut] demoFile.path demoOut.path false (by decide)⟩

/-- Claim C2: with overwrite disabled and an existing destination, a
strictly newer destination is skipped by the pre-check with no
subprocess spawned; a destination that is not strictly newer falls
through to `convert_file`, whose own plain-existence guard fails the
attempt without spawning a subprocess, and the file is then counted as
skipped by the classification step. -/
theorem C2_stale_skip (w : World) (cfg : Config) (st : LoopState) (sf : FSFile)
    (g : FSFile) (how : cfg.overwrite = false)
    (hg : fsLookup st.fs (outputPath sf cfg.target_ext) = some g) :
    (g.mtime > sf.mtime →
      processFile w cfg st sf = Except.ok
        { st with stats := { st.stats with skipped_count := st.stats.skipped_count + 1 } }) ∧
      (¬ g.mtime > sf.mtime → w.mkdirFails sf.dir = false →
        convert_file w st.fs sf.path (outputPath sf cfg.target_ext) cfg.to_wav
            cfg.overwrite =
            { ok := false, fs := st.fs, invoked := false } ∧
          processFile w cfg st sf = Except.ok
            { st with stats :=
                { st.stats with skipped_count := st.stats.skipped_count + 1 } }) := by
  have hex : fsExists st.fs (outputPath sf cfg.target_ext) = true := by
    simp [fsExists, hg]
  constructor
  · intro hgt
    simp only [processFile]
    rw [if_pos]
    simp [how, hex, hg, hgt]
  · intro hle hmk
    have hcf : convert_file w st.fs sf.path (outputPath sf cfg.target_ext) cfg.to_wav
        cfg.overwrite = { ok := false, fs := st.fs, invoked := false } := by
      simp only [convert_file]
      rw [if_pos]
      simp [hex, how]
    refine ⟨hcf, ?_⟩
    simp only [processFile, hcf]
    rw [if_neg, if_neg]
    · simp [hex, how]
    · simp [hmk]
    · simp [how, hex, hg, hle]

/-- Witness for C2 at a concrete input: destination `a.flac` with mtime 9
is strictly newer than source `a.wav` with mtime 5, giving the pre-check
skip. -/
theorem C2_stale_skip_witness :
    demoConfig.overwrite = false ∧
      fsLookup [demoFile, demoOut] (outputPath demoFile demoConfig.target_ext) =
        some demoOut ∧
      demoOut.mtime > demoFile.mtime ∧
      processFile demoWorld demoConfig
          { stats := Stats.init, fs := [demoFile, demoOut], calls := [] } demoFile =
        Except.ok
          { stats :=
              { success_count := 0, skipped_count := 1, error_count := 0
                total_input_size := 0, total_output_size := 0 }
            fs := [demoFile, demoOut], calls := [] } :=
  ⟨rfl, by decide, by decide,
    (C2_stale_skip demoWorld demoConfig
        { stats := Stats.init, fs := [demoFile, demoOut], calls := [] } demoFile demoOut
        rfl (by decide)).1 (by decide)⟩

/-- A source file whose conversion will fail with a genuine error. -/
def c3File : FSFile :=
  { dir := [], name := ['b', '.', 'w', 'a', 'v'], mtime := 10, size := 50 }

/-- The incomplete output left behind by the failing conversion. -/
def c3Out : FSFile :=
  { dir := [], name := ['b', '.', 'f', 'l', 'a', 'c'], mtime := 3, size := 7 }

/-- A world whose tool always fails (exit status 1, no refusal text in
stderr) while leaving an incomplete output file behind. -/
def c3World : World :=
  { inputDirValid := true, ffmpegAvailable := true, files := [c3File]
    tool := fun _ _ _ _ =>
      { raises := false, returncode := 1, stderrHasExistsMsg := false
        failCreatesOutput := true, outputSize := 7 }
    mkdirFails := fun _ => false, unlinkFails := fun _ => false, clock := 3 }

/-- Counterexample to claim C3 as stated: the conversion of `b.wav` fails
with exit status 1 and no "already exists" text in stderr, the
destination did not exist beforehand (so the invoker's guard did not
fire — the subprocess genuinely ran and failed), yet the run counts the
file as skipped (`skipped = 1`, `error = 0`), because the classification
at lines 170-173 re-checks `output_file.exists()` after the attempt and
the failing tool left an incomplete destination behind. -/
theorem C3_cex :
    process_directory c3World demoConfig =
        PDResult.completed
          { success_count := 0, skipped_count := 1, error_count := 0
            total_input_size := 0, total_output_size := 0 }
          [c3File, c3Out] [c3File] ∧
      fsExists c3World.files (outputPath c3File demoConfig.target_ext) = false ∧
      convert_file c3World [c3File] c3File.path
          (outputPath c3File demoConfig.target_ext) false false =
        { ok := false, fs := [c3File, c3Out], invoked := true } ∧
      (c3World.tool c3File.path (outputPath c3File demoConfig.target_ext) false
          false).stderrHasExistsMsg = false ∧
      (c3World.tool c3File.path (outputPath c3File demoConfig.target_ext) false
          false).returncode ≠ 0 := by
  decide

/-- Claim C3 (amended): after a failed conversion attempt, the file is
counted as skipped if and only if the destination exists at
classification time and overwrite is disabled — the failure reason
(stderr text, exit status, the invoker's guard) plays no role in the
classification; every other failed attempt is counted as an error. -/
theorem C3_classification_amended (w : World) (cfg : Config) (st : LoopState)
    (sf : FSFile)
    (hpre : (!cfg.overwrite && fsExists st.fs (outputPath sf cfg.target_ext) &&
        decide (((fsLookup st.fs (outputPath sf cfg.target_ext)).map FSFile.mtime).getD 0 >
          sf.mtime)) = false)
    (hmk : w.mkdirFails sf.dir = false)
    (hfail : (convert_file w st.fs sf.path (outputPath sf cfg.target_ext) cfg.to_wav
        cfg.overwrite).ok = false) :
    ∃ st', processFile w cfg st sf = Except.ok st' ∧
      st'.stats.success_count = st.stats.success_count ∧
      (st'.stats.skipped_count = st.stats.skipped_count + 1 ↔
        fsExists (convert_file w st.fs sf.path (outputPath sf cfg.target_ext) cfg.to_wav
            cfg.overwrite).fs (outputPath sf cfg.target_ext) = true ∧
          cfg.overwrite = false) ∧
      (st'.stats.error_count = st.stats.error_count + 1 ↔
        ¬ (fsExists (convert_file w st.fs sf.path (outputPath sf cfg.target_ext) cfg.to_wav
            cfg.overwrite).fs (outputPath sf cfg.target_ext) = true ∧
          cfg.overwrite = false)) := by
  simp only [processFile]
  rw [if_neg, if_neg]
  · rw [if_neg (by simp [hfail])]
    by_cases hcls : fsExists (convert_file w st.fs sf.path (outputPath sf cfg.target_ext)
        cfg.to_wav cfg.overwrite).fs (outputPath sf cfg.target_ext) = true ∧
        cfg.overwrite = false
    · rw [if_pos (by rw [hcls.1, hcls.2]; rfl)]
      refine ⟨_, rfl, rfl, ?_, ?_⟩
      · exact iff_of_true rfl hcls
      · exact iff_of_false (by simp) (not_not_intro hcls)
    · rw [if_neg ?hcond]
      case hcond =>
        intro hand
        rw [Bool.and_eq_true, Bool.not_eq_true'] at hand
        exact hcls ⟨hand.1, hand.2⟩
      refine ⟨_, rfl, rfl, ?_, ?_⟩
      · exact iff_of_false (by simp) hcls
      · exact iff_of_true rfl hcls
  · simp [hmk]
  · simp [hpre]

/-- Witness for the amended C3 at the concrete failing world: the
destination exists after the failed attempt, so the file counts as
skipped. -/
theorem C3_classification_amended_witness :
    (!demoConfig.overwrite && fsExists [c3File] (outputPath c3File demoConfig.target_ext) &&
        decide (((fsLookup [c3File] (outputPath c3File demoConfig.target_ext)).map
          FSFile.mtime).getD 0 > c3File.mtime)) = false ∧
      c3World.mkdirFails c3File.dir = false ∧
      (convert_file c3World [c3File] c3File.path (outputPath c3File demoConfig.target_ext)
        demoConfig.to_wav demoConfig.overwrite).ok = false ∧
      ∃ st', processFile c3World demoConfig
          { stats := Stats.init, fs := [c3File], calls := [] } c3File = Except.ok st' ∧
        st'.stats.success_count = Stats.init.success_count ∧
        (st'.stats.skipped_count = Stats.init.skipped_count + 1 ↔
          fsExists (convert_file c3World [c3File] c3File.path
              (outputPath c3File demoConfig.target_ext) demoConfig.to_wav
              demoConfig.overwrite).fs (outputPath c3File demoConfig.target_ext) = true ∧
            demoConfig.overwrite = false) ∧
        (st'.stats.error_count = Stats.init.error_count + 1 ↔
          ¬ (fsExists (convert_file c3World [c3File] c3File.path
              (outputPath c3File demoConfig.target_ext) demoConfig.to_wav
              demoConfig.overwrite).fs (outputPath c3File demoConfig.target_ext) = true ∧
            demoConfig.overwrite = false)) :=
  ⟨by decide, by decide, by decide,
    C3_classification_amended c3World demoConfig
      { stats := Stats.init, fs := [c3File], calls := [] } c3File
      (by decide) (by decide) (by decide)⟩

/-- A world whose input directory is invalid. -/
def c4World : World :=
  { inputDirValid := false, ffmpegAvailable := true, files := []
    tool := demoToolOk, mkdirFails := fun _ => false
    unlinkFails := fun _ => false, clock := 0 }

/-- A world in which ffmpeg is unavailable at startup. -/
def c4NoTool : World :=
  { demoWorld with ffmpegAvailable := false }

/-- Counterexample to claim C4 as stated: `input_dir` is present on the
command line and ffmpeg is available, but `input_dir` is not an existing
directory — `process_directory` prints its error and returns normally
(lines 106-108 end in a plain `return`), `main` never inspects that, and
the process exits with status 0, not 1. -/
theorem C4_cex :
    c4World.inputDirValid = false ∧ c4World.ffmpegAvailable = true ∧
      main_exit_code true c4World demoConfig = 0 := by
  decide

/-- Claim C4 (amended): the process exits 0 on every normal completion —
including runs with zero matches, per-file skips or errors, and also the
invalid-input-directory case, which only prints an error message; it
exits 1 exactly when `input_dir` is missing from the command line or
ffmpeg is unavailable at startup (or an exception escapes the run). -/
theorem C4_exit_codes_amended (input_dir_given : Bool) (w : World) (cfg : Config) :
    (input_dir_given = false → main_exit_code input_dir_given w cfg = 1) ∧
      (input_dir_given = true → w.ffmpegAvailable = false →
        main_exit_code input_dir_given w cfg = 1) ∧
      (input_dir_given = true → w.ffmpegAvailable = true → w.inputDirValid = false →
        main_exit_code input_dir_given w cfg = 0) ∧
      (input_dir_given = true → w.ffmpegAvailable = true →
        process_directory w cfg ≠ PDResult.aborted →
          main_exit_code input_dir_given w cfg = 0) := by
  refine ⟨?_, ?_, ?_, ?_⟩
  · intro h
    simp [main_exit_code, h]
  · intro h1 h2
    simp [main_exit_code, h1, h2]
  · intro h1 h2 h3
    simp [main_exit_code, h1, h2, process_directory, h3]
  · intro h1 h2 h3
    cases hpd : process_directory w cfg
    · simp [main_exit_code, h1, h2, hpd]
    · simp [main_exit_code, h1, h2, hpd]
    · simp [main_exit_code, h1, h2, hpd]
    · exact absurd hpd h3

/-- Witness for the amended C4 at concrete worlds, one per case. -/
theorem C4_exit_codes_amended_witness :
    main_exit_code false demoWorld demoConfig = 1 ∧
      main_exit_code true c4NoTool demoConfig = 1 ∧
      main_exit_code true c4World demoConfig = 0 ∧
      main_exit_code true demoWorld demoConfig = 0 :=
  ⟨(C4_exit_codes_amended false demoWorld demoConfig).1 rfl,
    (C4_exit_codes_amended true c4NoTool demoConfig).2.1 rfl rfl,
    (C4_exit_codes_amended true c4World demoConfig).2.2.1 rfl rfl rfl,
    (C4_exit_codes_amended true demoWorld demoConfig).2.2.2 rfl rfl (by decide)⟩

/-- A second source file, never reached in the aborting run. -/
def c5FileB : FSFile :=
  { dir := [], name := ['c', '.', 'w', 'a', 'v'], mtime := 2, size := 30 }

/-- A world in which `mkdir` raises for the root directory. -/
def c5World : World :=
  { inputDirValid := true, ffmpegAvailable := true, files := [demoFile, c5FileB]
    tool := demoToolOk, mkdirFails := fun d => d.isEmpty
    unlinkFails := fun _ => false, clock := 9 }

/-- Counterexample to claim C5 as stated: two files are discovered, but a
failure of `output_file.parent.mkdir(...)` (line 150, outside every
`try` block) on the first file aborts the whole run with an uncaught
exception: no summary is produced, the second file is never processed,
and the mkdir failure is not recorded as the first task's error. -/
theorem C5_cex :
    (discover demoConfig c5World.files).length = 2 ∧
      process_directory c5World demoConfig = PDResult.aborted := by
  decide

theorem processFile_ok_of_mkdir_ok {w : World} {cfg : Config} {st : LoopState}
    {sf : FSFile} (hmk : w.mkdirFails sf.dir = false) :
    ∃ st', processFile w cfg st sf = Except.ok st' := by
  simp only [processFile]
  split
  · exact ⟨_, rfl⟩
  · rw [if_neg (by simp [hmk])]
    split
    · split
      · split
        · exact ⟨_, rfl⟩
        · exact ⟨_, rfl⟩
      · exact ⟨_, rfl⟩
    · split
      · exact ⟨_, rfl⟩
      · exact ⟨_, rfl⟩

theorem runLoop_ok_of_mkdir_ok {w : World} {cfg : Config}
    (hmk : ∀ d, w.mkdirFails d = false) :
    ∀ (l : List FSFile) (st : LoopState), ∃ st', runLoop w cfg l st = Except.ok st' := by
  intro l
  induction l with
  | nil => exact fun st => ⟨st, rfl⟩
  | cons sf rest ih =>
    intro st
    obtain ⟨st₁, h1⟩ := processFile_ok_of_mkdir_ok (hmk sf.dir)
    obtain ⟨st', h2⟩ := ih st₁
    refine ⟨st', ?_⟩
    rw [runLoop, h1]
    exact h2

/-- Claim C5 (amended): per-file conversion failures — a raising
subprocess call, a nonzero exit status, a failed deletion of the
original — are isolated: every loop iteration completes whatever the
tool did, and when `mkdir` raises nowhere the run never aborts.  A
failure of the destination's parent-directory creation, however, is the
one non-isolated failure: it aborts the batch (see the counterexample)
instead of being counted as that task's error. -/
theorem C5_isolation_amended (w : World) (cfg : Config)
    (hmk : ∀ d, w.mkdirFails d = false) :
    (∀ (st : LoopState) (sf : FSFile), ∃ st', processFile w cfg st sf = Except.ok st') ∧
      process_directory w cfg ≠ PDResult.aborted := by
  constructor
  · exact fun st sf => processFile_ok_of_mkdir_ok (hmk sf.dir)
  · simp only [process_directory]
    split
    · simp
    · split
      · simp
      · obtain ⟨st', h⟩ := runLoop_ok_of_mkdir_ok hmk (discover cfg w.files)
          { stats := Stats.init, fs := w.files, calls := [] }
        rw [h]
        simp

/-- Witness for the amended C5: in the demo world `mkdir` never fails and
the run completes. -/
theorem C5_isolation_amended_witness :
    (∀ d, demoWorld.mkdirFails d = false) ∧
      ((∀ (st : LoopState) (sf : FSFile), ∃ st',
          processFile demoWorld demoConfig st sf = Except.ok st') ∧
        process_directory demoWorld demoConfig ≠ PDResult.aborted) :=
  ⟨fun _ => rfl, C5_isolation_amended demoWorld demoConfig (fun _ => rfl)⟩

/-! ### Shape lemmas for `convert_file` -/

theorem convert_file_raises {w : World} {fs : List FSFile} {inp out : FPath}
    {tw ow : Bool} (hg : (fsExists fs out && !ow) = false)
    (hr : (w.tool inp out tw ow).raises = true) :
    convert_file w fs inp out tw ow = { ok := false, fs := fs, invoked := true } := by
  rw [convert_file, if_neg (by simp [hg])]
  dsimp only
  rw [if_pos hr]

theorem convert_file_fail {w : World} {fs : List FSFile} {inp out : FPath}
    {tw ow : Bool} (hg : (fsExists fs out && !ow) = false)
    (hr : (w.tool inp out tw ow).raises = false)
    (hc : (w.tool inp out tw ow).returncode ≠ 0) :
    convert_file w fs inp out tw ow =
      { ok := false
        fs := if (w.tool inp out tw ow).failCreatesOutput then
                fsInsert fs
                  { dir := out.1, name := out.2, mtime := w.clock
                    size := (w.tool inp out tw ow).outputSize }
              else fs
        invoked := true } := by
  rw [convert_file, if_neg (by simp [hg])]
  dsimp only
  rw [if_neg (by simp [hr]), if_pos (by simpa using hc)]

theorem convert_file_success {w : World} {fs : List FSFile} {inp out : FPath}
    {tw ow : Bool} (hg : (fsExists fs out && !ow) = false)
    (hr : (w.tool inp out tw ow).raises = false)
    (hc : (w.tool inp out tw ow).returncode = 0) :
    convert_file w fs inp out tw ow =
      { ok := true
        fs := fsInsert fs
                { dir := out.1, name := out.2, mtime := w.clock
                  size := (w.tool inp out tw ow).outputSize }
        invoked := true } := by
  rw [convert_file, if_neg (by simp [hg])]
  dsimp only
  rw [if_neg (by simp [hr]), if_neg (by simp [hc])]

theorem convert_file_ok_inv {w : World} {fs : List FSFile} {inp out : FPath}
    {tw ow : Bool} (h : (convert_file w fs inp out tw ow).ok = true) :
    (fsExists fs out && !ow) = false ∧ (w.tool inp out tw ow).raises = false ∧
      (w.tool inp out tw ow).returncode = 0 := by
  by_cases hg : (fsExists fs out && !ow) = true
  · rw [convert_file, if_pos hg] at h
    exact absurd h (by simp)
  · have hg' : (fsExists fs out && !ow) = false := by
      cases hb : (fsExists fs out && !ow)
      · rfl
      · exact absurd hb hg
    by_cases hr : (w.tool inp out tw ow).raises = true
    · rw [convert_file_raises hg' hr] at h
      exact absurd h (by simp)
    · have hr' : (w.tool inp out tw ow).raises = false := by
        cases hb : (w.tool inp out tw ow).raises
        · rfl
        · exact absurd hb hr
      by_cases hc : (w.tool inp out tw ow).returncode = 0
      · exact ⟨hg', hr', hc⟩
      · rw [convert_file_fail hg' hr' hc] at h
        exact absurd h (by simp)

theorem target_ext_mk (r t dl o : Bool) :
    Config.target_ext { recursive := r, to_wav := t, delete_original := dl, overwrite := o } =
      (if t then wavExt else flacExt) := rfl

/-- Claim C7: byte totals accumulate exactly on conversion successes — a
step that does not increment the converted counter leaves both totals
unchanged; a step that does increments the input total by the source's
size and the output total by the size the tool wrote for the
destination (read back from the filesystem after the conversion); and
the statistics of a step are identical with and without
`delete_original`, i.e. both sizes are recorded before the optional
deletion of the source. -/
theorem C7_byte_totals (w : World) (cfg : Config) (st : LoopState) (sf : FSFile)
    (st' : LoopState) (h : processFile w cfg st sf = Except.ok st') :
    (st'.stats.success_count = st.stats.success_count →
      st'.stats.total_input_size = st.stats.total_input_size ∧
        st'.stats.total_output_size = st.stats.total_output_size) ∧
      (st'.stats.success_count = st.stats.success_count + 1 →
        st'.stats.total_input_size = st.stats.total_input_size + sf.size ∧
          st'.stats.total_output_size = st.stats.total_output_size +
            (w.tool sf.path (outputPath sf cfg.target_ext) cfg.to_wav
              cfg.overwrite).outputSize) ∧
      (∀ d : Bool,
        (processFile w { cfg with delete_original := d } st sf).map LoopState.stats =
          (processFile w cfg st sf).map LoopState.stats) := by
  refine ⟨?_, ?_, ?_⟩
  · intro hsucc
    simp only [processFile] at h
    split at h
    · simp only [Except.ok.injEq] at h
      subst h
      exact ⟨rfl, rfl⟩
    · split at h
      · exact absurd h (by simp)
      · split at h
        · exfalso
          split at h
          · split at h
            all_goals
              simp only [Except.ok.injEq] at h
              subst h
              simp at hsucc
          · simp only [Except.ok.injEq] at h
            subst h
            simp at hsucc
        · split at h <;> simp only [Except.ok.injEq] at h <;> subst h <;> exact ⟨rfl, rfl⟩
  · intro hsucc
    simp only [processFile] at h
    split at h
    · simp only [Except.ok.injEq] at h
      subst h
      simp at hsucc
    · split at h
      · exact absurd h (by simp)
      · split at h
        next hok =>
          have hinv := convert_file_ok_inv hok
          have hshape := convert_file_success hinv.1 hinv.2.1 hinv.2.2
          split at h
          · split at h
            all_goals
              simp only [Except.ok.injEq] at h
              subst h
              refine ⟨rfl, ?_⟩
              rw [hshape]
              simp [fsLookup_fsInsert, FSFile.path]
          · simp only [Except.ok.injEq] at h
            subst h
            refine ⟨rfl, ?_⟩
            rw [hshape]
            simp [fsLookup_fsInsert, FSFile.path]
        · split at h <;> simp only [Except.ok.injEq] at h <;> subst h <;> simp at hsucc
  · intro d
    simp only [processFile]
    dsimp only
    simp only [target_ext_mk, Config.target_ext]
    split
    all_goals
      split
      · rfl
      · split
        · rfl
        · split
          · repeat' split
            all_goals rfl
          · rfl

/-- Witness for C7 at a successful concrete step. -/
theorem C7_byte_totals_witness :
    processFile demoWorld demoConfig
        { stats := Stats.init, fs := [demoFile], calls := [] } demoFile =
      Except.ok
        { stats :=
            { success_count := 1, skipped_count := 0, error_count := 0
              total_input_size := 100, total_output_size := 40 }
          fs := [demoFile, demoOut], calls := [demoFile.path] } ∧
      (((1 : Nat) = 0 → (100 : Nat) = 0 ∧ (40 : Nat) = 0) ∧
        ((1 : Nat) = 0 + 1 →
          (100 : Nat) = 0 + demoFile.size ∧
            (40 : Nat) = 0 +
              (demoWorld.tool demoFile.path (outputPath demoFile demoConfig.target_ext)
                demoConfig.to_wav demoConfig.overwrite).outputSize) ∧
        (∀ d : Bool,
          (processFile demoWorld { demoConfig with delete_original := d }
              { stats := Stats.init, fs := [demoFile], calls := [] } demoFile).map
              LoopState.stats =
            (processFile demoWorld demoConfig
              { stats := Stats.init, fs := [demoFile], calls := [] } demoFile).map
              LoopState.stats)) :=
  ⟨by rfl,
    C7_byte_totals demoWorld demoConfig
      { stats := Stats.init, fs := [demoFile], calls := [] } demoFile
      { stats :=
          { success_count := 1, skipped_count := 0, error_count := 0
            total_input_size := 100, total_output_size := 40 }
        fs := [demoFile, demoOut], calls := [demoFile.path] }
      (by rfl)⟩

/-- A zero-byte source file: converting it gives a run with a positive
converted count and `total_input_size = 0`. -/
def c10File : FSFile :=
  { dir := [], name := ['z', '.', 'w', 'a', 'v'], mtime := 1, size := 0 }

/-- The output the tool writes for the zero-byte source. -/
def c10Out : FSFile :=
  { dir := [], name := ['z', '.', 'f', 'l', 'a', 'c'], mtime := 9, size := 3 }

/-- A world holding only the zero-byte source. -/
def c10World : World :=
  { inputDirValid := true, ffmpegAvailable := true, files := [c10File]
    tool := fun _ _ _ _ =>
      { raises := false, returncode := 0, stderrHasExistsMsg := false
        failCreatesOutput := false, outputSize := 3 }
    mkdirFails := fun _ => false, unlinkFails := fun _ => false, clock := 9 }

/-- Claim C10: whenever the compression summary is computed (converted
count strictly positive), the computation is total — the guarded Python
division is never evaluated at zero, and a zero input total reports the
value 0 instead of raising `ZeroDivisionError`. -/
theorem C10_summary_total (st : Stats) (_h : 0 < st.success_count) :
    ∃ q : ℚ, compressionQuotient st = some q ∧ (st.total_input_size = 0 → q = 0) := by
  rw [compressionQuotient]
  by_cases h0 : st.total_input_size > 0
  · rw [if_pos h0, pyDiv, if_neg (by simp [Nat.cast_eq_zero]; omega)]
    exact ⟨_, rfl, fun hc => absurd hc (by omega)⟩
  · rw [if_neg h0]
    exact ⟨0, rfl, fun _ => rfl⟩

/-- Witness for C10 at a real run reaching `converted = 1` with
`total_input_size = 0`. -/
theorem C10_summary_total_witness :
    process_directory c10World demoConfig = PDResult.completed
        { success_count := 1, skipped_count := 0, error_count := 0
          total_input_size := 0, total_output_size := 3 } [c10File, c10Out] [c10File] ∧
      0 < (1 : Nat) ∧
      (∃ q : ℚ, compressionQuotient
            { success_count := 1, skipped_count := 0, error_count := 0
              total_input_size := 0, total_output_size := 3 } = some q ∧
          ((0 : Nat) = 0 → q = 0)) :=
  ⟨by decide, by decide,
    C10_summary_total
      { success_count := 1, skipped_count := 0, error_count := 0
        total_input_size := 0, total_output_size := 3 } (by decide)⟩

/-! ### Discovery lemmas -/

theorem mem_discover {cfg : Config} {files : List FSFile} {sf : FSFile}
    (h : sf ∈ discover cfg files) :
    sf ∈ files ∧ cfg.source_ext <:+ sf.name ∧ (cfg.recursive = false → sf.dir = []) := by
  rw [discover] at h
  split at h
  next hrec =>
    rw [List.mem_filter] at h
    refine ⟨h.1, of_decide_eq_true h.2, fun hf => ?_⟩
    rw [hf] at hrec
    exact absurd hrec (by simp)
  next hrec =>
    rw [List.mem_filter, Bool.and_eq_true] at h
    exact ⟨h.1, of_decide_eq_true h.2.2, fun _ => List.isEmpty_iff.mp h.2.1⟩

theorem mem_discover_intro {cfg : Config} {files : List FSFile} {sf : FSFile}
    (h1 : sf ∈ files) (h2 : cfg.source_ext <:+ sf.name)
    (h3 : cfg.recursive = false → sf.dir = []) :
    sf ∈ discover cfg files := by
  rw [discover]
  split
  next hrec => exact List.mem_filter.mpr ⟨h1, decide_eq_true h2⟩
  next hrec =>
    have hf : cfg.recursive = false := by
      cases hb : cfg.recursive
      · rfl
      · exact absurd hb hrec
    rw [List.mem_filter, Bool.and_eq_true]
    exact ⟨h1, by simp [h3 hf], decide_eq_true h2⟩

/-- Claim C8: every discovered source ends in the direction's source
extension; its computed destination lives in the same directory, keeps
the stem, carries exactly the target extension as suffix, ends in the
target extension, and never ends in the source extension — so a
`to_wav = false` run only maps `.wav` sources to `.flac` destinations
and a `to_wav = true` run only maps `.flac` sources to `.wav`
destinations, extensions never mixed. -/
theorem C8_direction_symmetry (cfg : Config) (files : List FSFile) (sf : FSFile)
    (h : sf ∈ discover cfg files) :
    cfg.source_ext <:+ sf.name ∧
      (outputPath sf cfg.target_ext).1 = sf.dir ∧
      pySuffix (outputPath sf cfg.target_ext).2 = cfg.target_ext ∧
      pyStem (outputPath sf cfg.target_ext).2 = pyStem sf.name ∧
      cfg.target_ext <:+ (outputPath sf cfg.target_ext).2 ∧
      ¬ cfg.source_ext <:+ (outputPath sf cfg.target_ext).2 := by
  obtain ⟨hmem, hsfx, hdir⟩ := mem_discover h
  obtain ⟨t, hte, htne, htd⟩ := target_ext_shape cfg
  have hn : sf.name ≠ [] := ne_nil_of_source_suffix cfg hsfx
  refine ⟨hsfx, rfl, ?_, ?_, target_suffix_output cfg sf.name,
    source_not_suffix_output cfg sf.name⟩
  · show pySuffix (pyWithSuffix sf.name cfg.target_ext) = cfg.target_ext
    rw [hte]
    exact pySuffix_pyWithSuffix sf.name t hn htne htd
  · show pyStem (pyWithSuffix sf.name cfg.target_ext) = pyStem sf.name
    rw [hte]
    exact pyStem_pyWithSuffix sf.name t hn htne htd

/-- Witness for C8 at the demo world. -/
theorem C8_direction_symmetry_witness :
    demoFile ∈ discover demoConfig [demoFile] ∧
      (demoConfig.source_ext <:+ demoFile.name ∧
        (outputPath demoFile demoConfig.target_ext).1 = demoFile.dir ∧
        pySuffix (outputPath demoFile demoConfig.target_ext).2 = demoConfig.target_ext ∧
        pyStem (outputPath demoFile demoConfig.target_ext).2 = pyStem demoFile.name ∧
        demoConfig.target_ext <:+ (outputPath demoFile demoConfig.target_ext).2 ∧
        ¬ demoConfig.source_ext <:+ (outputPath demoFile demoConfig.target_ext).2) :=
  ⟨by decide, C8_direction_symmetry demoConfig [demoFile] demoFile (by decide)⟩

/-! ### Filesystem effects of one loop step, and loop invariants -/

/-- The file record a tool invocation writes at the destination path. -/
def toolOutput (w : World) (cfg : Config) (sf : FSFile) : FSFile :=
  { dir := sf.dir, name := pyWithSuffix sf.name cfg.target_ext, mtime := w.clock
    size := (w.tool sf.path (outputPath sf cfg.target_ext) cfg.to_wav
      cfg.overwrite).outputSize }

theorem convert_file_fs_cases (w : World) (fs : List FSFile) (inp out : FPath)
    (tw ow : Bool) :
    (convert_file w fs inp out tw ow).fs = fs ∨
      (convert_file w fs inp out tw ow).fs =
        fsInsert fs
          { dir := out.1, name := out.2, mtime := w.clock
            size := (w.tool inp out tw ow).outputSize } := by
  rw [convert_file]
  split
  · exact Or.inl rfl
  · dsimp only
    split
    · exact Or.inl rfl
    · split
      · split
        · exact Or.inr rfl
        · exact Or.inl rfl
      · exact Or.inr rfl

theorem processFile_fs_cases {w : World} {cfg : Config} {st : LoopState} {sf : FSFile}
    {st' : LoopState} (h : processFile w cfg st sf = Except.ok st') :
    st'.fs = st.fs ∨
      (w.mkdirFails sf.dir = false ∧
        (st'.fs = st.fs ∨ st'.fs = fsInsert st.fs (toolOutput w cfg sf) ∨
          st'.fs = fsRemove (fsInsert st.fs (toolOutput w cfg sf)) sf.path)) := by
  simp only [processFile] at h
  split at h
  · simp only [Except.ok.injEq] at h
    subst h
    exact Or.inl rfl
  · split at h
    · exact absurd h (by simp)
    next hmk =>
      have hmk' : w.mkdirFails sf.dir = false := by
        cases hb : w.mkdirFails sf.dir
        · rfl
        · exact absurd hb hmk
      refine Or.inr ⟨hmk', ?_⟩
      split at h
      next hok =>
        have hshape := convert_file_ok_inv hok
        have hs := convert_file_success hshape.1 hshape.2.1 hshape.2.2
        split at h
        · split at h
          · simp only [Except.ok.injEq] at h
            subst h
            refine Or.inr (Or.inl ?_)
            rw [hs]
            rfl
          · simp only [Except.ok.injEq] at h
            subst h
            refine Or.inr (Or.inr ?_)
            rw [hs]
            rfl
        · simp only [Except.ok.injEq] at h
          subst h
          refine Or.inr (Or.inl ?_)
          rw [hs]
          rfl
      · rcases convert_file_fs_cases w st.fs sf.path (outputPath sf cfg.target_ext)
            cfg.to_wav cfg.overwrite with hc | hc
        · split at h <;> simp only [Except.ok.injEq] at h <;> subst h <;>
            exact Or.inl hc
        · split at h <;> simp only [Except.ok.injEq] at h <;> subst h <;>
            refine Or.inr (Or.inl ?_) <;> rw [hc] <;> rfl

theorem toolOutput_path (w : World) (cfg : Config) (sf : FSFile) :
    (toolOutput w cfg sf).path = outputPath sf cfg.target_ext := rfl

theorem toolOutput_name_suffix (w : World) (cfg : Config) (sf : FSFile) :
    cfg.target_ext <:+ (toolOutput w cfg sf).name :=
  target_suffix_output cfg sf.name

/-- A step made for a file in a directory where `mkdir` would raise never
happened past the pre-check, so it touches nothing. -/
theorem processFile_lookup_dir {w : World} {cfg : Config} {st : LoopState} {sf : FSFile}
    {st' : LoopState} {d : DirPath} (hd : w.mkdirFails d = true)
    (h : processFile w cfg st sf = Except.ok st') :
    ∀ nm : List Char, fsLookup st'.fs (d, nm) = fsLookup st.fs (d, nm) := by
  intro nm
  rcases processFile_fs_cases h with hfs | ⟨hmk, hfs | hfs | hfs⟩
  · rw [hfs]
  · rw [hfs]
  · have hne : sf.dir ≠ d := fun he => by rw [he, hd] at hmk; exact absurd hmk (by simp)
    rw [hfs, fsLookup_fsInsert]
    rw [if_neg]
    intro he
    rw [toolOutput_path] at he
    exact hne (congrArg Prod.fst he).symm
  · have hne : sf.dir ≠ d := fun he => by rw [he, hd] at hmk; exact absurd hmk (by simp)
    rw [hfs, fsLookup_fsRemove_ne, fsLookup_fsInsert, if_neg]
    · intro he
      rw [toolOutput_path] at he
      exact hne (congrArg Prod.fst he).symm
    · intro he
      exact hne (congrArg Prod.fst he).symm

/-- Destinations persist: a step never removes a file whose name does not
end in the source extension. -/
theorem processFile_dest_mono {w : World} {cfg : Config} {st : LoopState} {sf : FSFile}
    {st' : LoopState} (hsf : cfg.source_ext <:+ sf.name)
    (h : processFile w cfg st sf = Except.ok st') {p : FPath}
    (hp : ¬ cfg.source_ext <:+ p.2) (hex : fsExists st.fs p = true) :
    fsExists st'.fs p = true := by
  have hpsf : p ≠ sf.path := by
    intro he
    rw [he] at hp
    exact hp hsf
  rcases processFile_fs_cases h with hfs | ⟨_, hfs | hfs | hfs⟩
  · rw [hfs]; exact hex
  · rw [hfs]; exact hex
  · rw [hfs, fsExists_fsInsert, hex]
    simp
  · rw [hfs, fsExists_fsRemove, fsExists_fsInsert, hex]
    simp [hpsf]

/-- New records only appear at destination paths: a file whose name does
not end in the target extension and is present after a step was present
before it. -/
theorem processFile_mem_backward {w : World} {cfg : Config} {st : LoopState}
    {sf : FSFile} {st' : LoopState} {f : FSFile}
    (hf : ¬ cfg.target_ext <:+ f.name)
    (h : processFile w cfg st sf = Except.ok st') (hmem : f ∈ st'.fs) : f ∈ st.fs := by
  rcases processFile_fs_cases h with hfs | ⟨_, hfs | hfs | hfs⟩
  · rw [hfs] at hmem; exact hmem
  · rw [hfs] at hmem; exact hmem
  · rw [hfs] at hmem
    rcases mem_fsInsert hmem with hm | hm
    · exact hm
    · exact absurd (hm ▸ toolOutput_name_suffix w cfg sf) hf
  · rw [hfs] at hmem
    rcases mem_fsInsert (mem_fsRemove hmem) with hm | hm
    · exact hm
    · exact absurd (hm ▸ toolOutput_name_suffix w cfg sf) hf

theorem runLoop_lookup_dir {w : World} {cfg : Config} {d : DirPath}
    (hd : w.mkdirFails d = true) :
    ∀ {l : List FSFile} {st st' : LoopState}, runLoop w cfg l st = Except.ok st' →
      ∀ nm : List Char, fsLookup st'.fs (d, nm) = fsLookup st.fs (d, nm) := by
  intro l
  induction l with
  | nil =>
    intro st st' h nm
    rw [runLoop] at h
    simp only [Except.ok.injEq] at h
    subst h
    rfl
  | cons sf rest ih =>
    intro st st' h nm
    rw [runLoop] at h
    cases hp : processFile w cfg st sf with
    | error e => rw [hp] at h; exact absurd h (by simp)
    | ok st₁ =>
      rw [hp] at h
      rw [ih h nm, processFile_lookup_dir hd hp nm]

theorem runLoop_dest_mono {w : World} {cfg : Config} :
    ∀ {l : List FSFile} {st st' : LoopState},
      (∀ x ∈ l, cfg.source_ext <:+ x.name) →
      runLoop w cfg l st = Except.ok st' →
      ∀ {p : FPath}, ¬ cfg.source_ext <:+ p.2 → fsExists st.fs p = true →
        fsExists st'.fs p = true := by
  intro l
  induction l with
  | nil =>
    intro st st' _ h p hp hex
    rw [runLoop] at h
    simp only [Except.ok.injEq] at h
    subst h
    exact hex
  | cons sf rest ih =>
    intro st st' hl h p hp hex
    rw [runLoop] at h
    cases hpr : processFile w cfg st sf with
    | error e => rw [hpr] at h; exact absurd h (by simp)
    | ok st₁ =>
      rw [hpr] at h
      exact ih (fun x hx => hl x (List.mem_cons_of_mem sf hx)) h hp
        (processFile_dest_mono (hl sf (List.mem_cons_self sf rest)) hpr hp hex)

theorem runLoop_mem_backward {w : World} {cfg : Config} {f : FSFile}
    (hf : ¬ cfg.target_ext <:+ f.name) :
    ∀ {l : List FSFile} {st st' : LoopState}, runLoop w cfg l st = Except.ok st' →
      f ∈ st'.fs → f ∈ st.fs := by
  intro l
  induction l with
  | nil =>
    intro st st' h hmem
    rw [runLoop] at h
    simp only [Except.ok.injEq] at h
    subst h
    exact hmem
  | cons sf rest ih =>
    intro st st' h hmem
    rw [runLoop] at h
    cases hpr : processFile w cfg st sf with
    | error e => rw [hpr] at h; exact absurd h (by simp)
    | ok st₁ =>
      rw [hpr] at h
      exact processFile_mem_backward hf hpr (ih h hmem)

theorem pre_cond_true_elim {cfg : Config} {fs : List FSFile} {out : FPath} {m : Nat}
    (hc : (!cfg.overwrite && fsExists fs out &&
      decide (((fsLookup fs out).map FSFile.mtime).getD 0 > m)) = true) :
    ∃ g, fsLookup fs out = some g ∧ g.mtime > m := by
  rw [Bool.and_eq_true, Bool.and_eq_true] at hc
  obtain ⟨⟨_, h2⟩, h3⟩ := hc
  rw [fsExists] at h2
  cases hg : fsLookup fs out with
  | none => rw [hg] at h2; exact absurd h2 (by simp)
  | some g =>
    refine ⟨g, rfl, ?_⟩
    rw [hg] at h3
    have := of_decide_eq_true h3
    simpa using this

theorem dest_ne_src_path {cfg : Config} {sf : FSFile}
    (hsf : cfg.source_ext <:+ sf.name) :
    outputPath sf cfg.target_ext ≠ sf.path := by
  intro he
  have h1 : pyWithSuffix sf.name cfg.target_ext = sf.name := congrArg Prod.snd he
  have h2 : cfg.source_ext <:+ pyWithSuffix sf.name cfg.target_ext := by
    rw [h1]
    exact hsf
  exact source_not_suffix_output cfg sf.name h2

/-- One-step trichotomy for a source file under `overwrite = false`:
either the pre-check skipped it (destination on record, strictly newer,
and `mkdir` was never reached so it may be failing), or `mkdir` was
passed and afterwards the destination exists, or `mkdir` was passed and
the tool call failed without leaving an output behind. -/
theorem processFile_step_trace {w : World} {cfg : Config} {st : LoopState}
    {sf : FSFile} {st₁ : LoopState} (how : cfg.overwrite = false)
    (hsf : cfg.source_ext <:+ sf.name)
    (hpr : processFile w cfg st sf = Except.ok st₁) :
    (w.mkdirFails sf.dir = true ∧
        ∃ g, fsLookup st.fs (outputPath sf cfg.target_ext) = some g ∧
          g.mtime > sf.mtime) ∨
      (w.mkdirFails sf.dir = false ∧
        (fsExists st₁.fs (outputPath sf cfg.target_ext) = true ∨
          ((w.tool sf.path (outputPath sf cfg.target_ext) cfg.to_wav
              cfg.overwrite).raises = true ∨
            ((w.tool sf.path (outputPath sf cfg.target_ext) cfg.to_wav
                cfg.overwrite).returncode ≠ 0 ∧
              (w.tool sf.path (outputPath sf cfg.target_ext) cfg.to_wav
                cfg.overwrite).failCreatesOutput = false)))) := by
  simp only [processFile] at hpr
  split at hpr
  next hcond =>
    obtain ⟨g, hg, hgt⟩ := pre_cond_true_elim hcond
    cases hb : w.mkdirFails sf.dir
    · refine Or.inr ⟨rfl, Or.inl ?_⟩
      simp only [Except.ok.injEq] at hpr
      subst hpr
      simp [fsExists, hg]
    · exact Or.inl ⟨rfl, g, hg, hgt⟩
  · split at hpr
    · exact absurd hpr (by simp)
    next hmkneg =>
      have hmk' : w.mkdirFails sf.dir = false := by
        cases hb : w.mkdirFails sf.dir
        · rfl
        · exact absurd hb hmkneg
      refine Or.inr ⟨hmk', ?_⟩
      by_cases hexg : fsExists st.fs (outputPath sf cfg.target_ext) = true
      · -- the invoker's guard fired: filesystem unchanged, destination there
        have hgr : convert_file w st.fs sf.path (outputPath sf cfg.target_ext)
            cfg.to_wav cfg.overwrite = { ok := false, fs := st.fs, invoked := false } := by
          rw [convert_file, if_pos (by rw [hexg, how]; rfl)]
        rw [hgr] at hpr
        rw [if_neg (by simp)] at hpr
        rw [if_pos (by rw [hexg, how]; rfl)] at hpr
        simp only [Except.ok.injEq] at hpr
        subst hpr
        exact Or.inl hexg
      · have hexg' : fsExists st.fs (outputPath sf cfg.target_ext) = false := by
          cases hb : fsExists st.fs (outputPath sf cfg.target_ext)
          · rfl
          · exact absurd hb hexg
        have hguard : (fsExists st.fs (outputPath sf cfg.target_ext) &&
            !cfg.overwrite) = false := by
          rw [hexg']
          rfl
        by_cases hra : (w.tool sf.path (outputPath sf cfg.target_ext) cfg.to_wav
            cfg.overwrite).raises = true
        · exact Or.inr (Or.inl hra)
        · have hra' : (w.tool sf.path (outputPath sf cfg.target_ext) cfg.to_wav
              cfg.overwrite).raises = false := by
            cases hb : (w.tool sf.path (outputPath sf cfg.target_ext) cfg.to_wav
                cfg.overwrite).raises
            · rfl
            · exact absurd hb hra
          by_cases hrc : (w.tool sf.path (outputPath sf cfg.target_ext) cfg.to_wav
              cfg.overwrite).returncode = 0
          · -- success: the destination is written
            have hs := convert_file_success hguard hra' hrc
            rw [hs] at hpr
            refine Or.inl ?_
            split at hpr
            · split at hpr
              · split at hpr
                all_goals
                  simp only [Except.ok.injEq] at hpr
                  subst hpr
                  have hne := dest_ne_src_path hsf
                  rw [FSFile.path] at hne
                  simp [fsExists_fsRemove, fsExists_fsInsert, FSFile.path, hne]
              · simp only [Except.ok.injEq] at hpr
                subst hpr
                simp [fsExists_fsInsert, FSFile.path]
            next hok =>
              exact absurd rfl hok
          · by_cases hfc : (w.tool sf.path (outputPath sf cfg.target_ext) cfg.to_wav
                cfg.overwrite).failCreatesOutput = true
            · -- failure leaving an output behind
              have hf := convert_file_fail hguard hra' hrc
              rw [hf, if_pos hfc] at hpr
              refine Or.inl ?_
              split at hpr
              next hok => exact absurd hok (by simp)
              · split at hpr
                all_goals
                  simp only [Except.ok.injEq] at hpr
                  subst hpr
                  simp [fsExists_fsInsert, FSFile.path]
            · have hfc' : (w.tool sf.path (outputPath sf cfg.target_ext) cfg.to_wav
                  cfg.overwrite).failCreatesOutput = false := by
                cases hb : (w.tool sf.path (outputPath sf cfg.target_ext) cfg.to_wav
                    cfg.overwrite).failCreatesOutput
                · rfl
                · exact absurd hb hfc
              exact Or.inr (Or.inr ⟨hrc, hfc'⟩)

/-- Trace facts about a completed traversal under `overwrite = false`:
for every processed source file, (a) if its destination is absent at the
end, its directory's `mkdir` was passed and the tool call genuinely
failed without leaving an output; (b) if its directory's `mkdir` would
fail, the pre-check must have skipped it, and the destination record —
strictly newer than the source — is the same before and after the run. -/
theorem runLoop_trace {w : World} {cfg : Config} (how : cfg.overwrite = false) :
    ∀ {l : List FSFile} {st st' : LoopState},
      (∀ x ∈ l, cfg.source_ext <:+ x.name) →
      runLoop w cfg l st = Except.ok st' →
      ∀ {sf : FSFile}, sf ∈ l →
        (fsExists st'.fs (outputPath sf cfg.target_ext) = false →
          w.mkdirFails sf.dir = false ∧
            ((w.tool sf.path (outputPath sf cfg.target_ext) cfg.to_wav
                cfg.overwrite).raises = true ∨
              ((w.tool sf.path (outputPath sf cfg.target_ext) cfg.to_wav
                  cfg.overwrite).returncode ≠ 0 ∧
                (w.tool sf.path (outputPath sf cfg.target_ext) cfg.to_wav
                  cfg.overwrite).failCreatesOutput = false))) ∧
          (w.mkdirFails sf.dir = true →
            ∃ g, fsLookup st.fs (outputPath sf cfg.target_ext) = some g ∧
              fsLookup st'.fs (outputPath sf cfg.target_ext) = some g ∧
                g.mtime > sf.mtime) := by
  intro l
  induction l with
  | nil =>
    intro st st' _ _ sf hsf
    exact absurd hsf (List.not_mem_nil sf)
  | cons sf0 rest ih =>
    intro st st' hl h sf hsf
    rw [runLoop] at h
    cases hpr : processFile w cfg st sf0 with
    | error e => rw [hpr] at h; exact absurd h (by simp)
    | ok st₁ =>
      rw [hpr] at h
      have hlrest : ∀ x ∈ rest, cfg.source_ext <:+ x.name :=
        fun x hx => hl x (List.mem_cons_of_mem _ hx)
      rcases List.mem_cons.mp hsf with heq | hmem
      · subst heq
        have hl0 : cfg.source_ext <:+ sf.name := hl sf (List.mem_cons_self _ _)
        rcases processFile_step_trace how hl0 hpr with ⟨hd, g, hg, hgt⟩ | ⟨hmk, hcase⟩
        · have e1 := processFile_lookup_dir hd hpr (pyWithSuffix sf.name cfg.target_ext)
          have e2 := runLoop_lookup_dir hd h (pyWithSuffix sf.name cfg.target_ext)
          constructor
          · intro hexf
            exfalso
            rw [fsExists, outputPath, e2, e1] at hexf
            rw [outputPath] at hg
            rw [hg] at hexf
            exact absurd hexf (by simp)
          · intro _
            refine ⟨g, hg, ?_, hgt⟩
            rw [outputPath] at hg ⊢
            rw [e2, e1]
            exact hg
        · constructor
          · intro hexf
            rcases hcase with hex1 | htf
            · have hmono := runLoop_dest_mono hlrest h
                (source_not_suffix_output cfg sf.name) hex1
              rw [hmono] at hexf
              exact absurd hexf (by simp)
            · exact ⟨hmk, htf⟩
          · intro hd'
            rw [hd'] at hmk
            exact absurd hmk (by simp)
      · have ihres := ih hlrest h hmem
        refine ⟨ihres.1, ?_⟩
        intro hd
        obtain ⟨g, hg1, hg2, hgt⟩ := ihres.2 hd
        refine ⟨g, ?_, hg2, hgt⟩
        have e1 := processFile_lookup_dir hd hpr (pyWithSuffix sf.name cfg.target_ext)
        rw [outputPath] at hg1 ⊢
        rw [← e1]
        exact hg1

theorem processFile_files_irrel (w : World) (f' : List FSFile) (cfg : Config)
    (st : LoopState) (sf : FSFile) :
    processFile { w with files := f' } cfg st sf = processFile w cfg st sf := rfl

theorem runLoop_files_irrel (w : World) (f' : List FSFile) (cfg : Config) :
    ∀ (l : List FSFile) (st : LoopState),
      runLoop { w with files := f' } cfg l st = runLoop w cfg l st := by
  intro l
  induction l with
  | nil => intro st; rfl
  | cons sf rest ih =>
    intro st
    rw [runLoop, runLoop, processFile_files_irrel]
    cases processFile w cfg st sf with
    | error e => rfl
    | ok st₁ => exact ih st₁

/-- Claim C6: idempotence.  Re-running the tool immediately after a
completed run with overwrite disabled performs zero new conversions: the
second run either finds no sources (all were deleted), or completes with
`converted = 0` and an unchanged filesystem; and every candidate whose
destination is on disk after the first run is skipped — by the
stale-output pre-check or by the invoker's plain-existence guard — with
no filesystem change and no new subprocess recorded. -/
theorem C6_idempotent (w : World) (cfg : Config) (st1 : Stats) (fs1 s1 : List FSFile)
    (how : cfg.overwrite = false)
    (h1 : process_directory w cfg = PDResult.completed st1 fs1 s1) :
    (process_directory { w with files := fs1 } cfg = PDResult.noFiles ∨
        ∃ st2 : Stats,
          process_directory { w with files := fs1 } cfg =
              PDResult.completed st2 fs1 (discover cfg fs1) ∧
            st2.success_count = 0) ∧
      (∀ sf ∈ discover cfg fs1,
        fsExists fs1 (outputPath sf cfg.target_ext) = true →
          ∀ (s : Stats) (c : List FPath),
            processFile w cfg { stats := s, fs := fs1, calls := c } sf =
              Except.ok
                { stats := { s with skipped_count := s.skipped_count + 1 }
                  fs := fs1, calls := c }) := by
  obtain ⟨hv, hs1, hne1, stEnd, hrun, hst1, hfs1⟩ := process_directory_completed h1
  subst hfs1
  have hl1 : ∀ x ∈ s1, cfg.source_ext <:+ x.name := by
    intro x hx
    rw [hs1] at hx
    exact (mem_discover hx).2.1
  -- every second-run candidate was a first-run candidate
  have hsubset : ∀ sf ∈ discover cfg stEnd.fs, sf ∈ s1 := by
    intro sf hsf
    obtain ⟨hmemfs1, hsfx, hdir⟩ := mem_discover hsf
    have hnot_te : ¬ cfg.target_ext <:+ sf.name :=
      fun hte => source_target_excl cfg hsfx hte
    have hmemw : sf ∈ w.files := runLoop_mem_backward hnot_te hrun hmemfs1
    rw [hs1]
    exact mem_discover_intro hmemw hsfx hdir
  -- the per-file dichotomy for the second run
  have hdich : ∀ sf ∈ discover cfg stEnd.fs,
      (fsExists stEnd.fs (outputPath sf cfg.target_ext) = true ∧
        ∀ (s : Stats) (c : List FPath),
          processFile w cfg { stats := s, fs := stEnd.fs, calls := c } sf =
            Except.ok
              { stats := { s with skipped_count := s.skipped_count + 1 }
                fs := stEnd.fs, calls := c }) ∨
      (fsExists stEnd.fs (outputPath sf cfg.target_ext) = false ∧
        ∀ (s : Stats) (c : List FPath),
          processFile w cfg { stats := s, fs := stEnd.fs, calls := c } sf =
            Except.ok
              { stats := { s with error_count := s.error_count + 1 }
                fs := stEnd.fs, calls := c ++ [sf.path] }) := by
    intro sf hsf
    have hmemS1 := hsubset sf hsf
    have hsfx : cfg.source_ext <:+ sf.name := (mem_discover hsf).2.1
    have tr := runLoop_trace how hl1 hrun hmemS1
    by_cases hex : fsExists stEnd.fs (outputPath sf cfg.target_ext) = true
    · left
      refine ⟨hex, ?_⟩
      obtain ⟨g, hg⟩ : ∃ g, fsLookup stEnd.fs (outputPath sf cfg.target_ext) = some g := by
        rw [fsExists] at hex
        cases hgx : fsLookup stEnd.fs (outputPath sf cfg.target_ext) with
        | none => rw [hgx] at hex; exact absurd hex (by simp)
        | some g => exact ⟨g, rfl⟩
      intro s c
      by_cases hgt : g.mtime > sf.mtime
      · -- stale-output pre-check skip
        simp only [processFile]
        rw [if_pos]
        simp [how, hex, hg, hgt]
      · -- invoker guard skip; `mkdir` is known to pass
        have hmkok : w.mkdirFails sf.dir = false := by
          cases hb : w.mkdirFails sf.dir
          · rfl
          · exfalso
            obtain ⟨g', _, hg'2, hg't⟩ := tr.2 hb
            rw [hg] at hg'2
            injection hg'2 with he
            rw [← he] at hg't
            exact hgt hg't
        have hgr : convert_file w stEnd.fs sf.path (outputPath sf cfg.target_ext)
            cfg.to_wav cfg.overwrite =
            { ok := false, fs := stEnd.fs, invoked := false } := by
          rw [convert_file, if_pos (by rw [hex, how]; rfl)]
        simp only [processFile]
        rw [if_neg, if_neg (by simp [hmkok])]
        · rw [hgr, if_neg (by simp), if_pos (by rw [hex, how]; rfl)]
          rfl
        · simp [how, hex, hg, hgt]
    · right
      have hex' : fsExists stEnd.fs (outputPath sf cfg.target_ext) = false := by
        cases hb : fsExists stEnd.fs (outputPath sf cfg.target_ext)
        · rfl
        · exact absurd hb hex
      refine ⟨hex', ?_⟩
      obtain ⟨hmkok, htf⟩ := tr.1 hex'
      intro s c
      have hguard : (fsExists stEnd.fs (outputPath sf cfg.target_ext) &&
          !cfg.overwrite) = false := by
        rw [hex']
        rfl
      simp only [processFile]
      rw [if_neg (by simp [hex']), if_neg (by simp [hmkok])]
      by_cases hra : (w.tool sf.path (outputPath sf cfg.target_ext) cfg.to_wav
          cfg.overwrite).raises = true
      · rw [convert_file_raises hguard hra, if_neg (by simp), if_neg (by simp [hex'])]
        rfl
      · have hra' : (w.tool sf.path (outputPath sf cfg.target_ext) cfg.to_wav
            cfg.overwrite).raises = false := by
          cases hb : (w.tool sf.path (outputPath sf cfg.target_ext) cfg.to_wav
              cfg.overwrite).raises
          · rfl
          · exact absurd hb hra
        have hrcfc : (w.tool sf.path (outputPath sf cfg.target_ext) cfg.to_wav
            cfg.overwrite).returncode ≠ 0 ∧
            (w.tool sf.path (outputPath sf cfg.target_ext) cfg.to_wav
              cfg.overwrite).failCreatesOutput = false := by
          rcases htf with hcontra | hok
          · exact absurd hcontra hra
          · exact hok
        have hfail2 : convert_file w stEnd.fs sf.path (outputPath sf cfg.target_ext)
            cfg.to_wav cfg.overwrite =
            { ok := false, fs := stEnd.fs, invoked := true } := by
          rw [convert_file_fail hguard hra' hrcfc.1]
          rw [if_neg (by simp [hrcfc.2])]
        rw [hfail2, if_neg (by simp), if_neg (by simp [hex'])]
        rfl
  -- the second run's loop keeps the filesystem fixed and converts nothing
  have hloop2 : ∀ (l : List FSFile), (∀ x ∈ l, x ∈ discover cfg stEnd.fs) →
      ∀ (s : Stats) (c : List FPath), ∃ (s' : Stats) (c' : List FPath),
        runLoop w cfg l { stats := s, fs := stEnd.fs, calls := c } =
            Except.ok { stats := s', fs := stEnd.fs, calls := c' } ∧
          s'.success_count = s.success_count := by
    intro l
    induction l with
    | nil => exact fun _ s c => ⟨s, c, rfl, rfl⟩
    | cons sf rest ih =>
      intro hmem s c
      rcases hdich sf (hmem sf (List.mem_cons_self _ _)) with ⟨_, hstep⟩ | ⟨_, hstep⟩
      · obtain ⟨s', c', hr, hs'⟩ :=
          ih (fun x hx => hmem x (List.mem_cons_of_mem _ hx))
            { s with skipped_count := s.skipped_count + 1 } c
        refine ⟨s', c', ?_, hs'⟩
        rw [runLoop, hstep s c]
        exact hr
      · obtain ⟨s', c', hr, hs'⟩ :=
          ih (fun x hx => hmem x (List.mem_cons_of_mem _ hx))
            { s with error_count := s.error_count + 1 } (c ++ [sf.path])
        refine ⟨s', c', ?_, hs'⟩
        rw [runLoop, hstep s c]
        exact hr
  constructor
  · by_cases hempty : (discover cfg stEnd.fs).isEmpty = true
    · left
      simp only [process_directory]
      rw [if_neg (by simp [hv])]
      rw [if_pos (by simpa using hempty)]
    · right
      obtain ⟨s', c', hr, hs'⟩ :=
        hloop2 (discover cfg stEnd.fs) (fun x hx => hx) Stats.init []
      refine ⟨s', ?_, hs'⟩
      simp only [process_directory]
      rw [if_neg (by simp [hv])]
      rw [if_neg (by simpa using hempty)]
      rw [runLoop_files_irrel]
      rw [hr]
  · intro sf hsf hex s c
    rcases hdich sf hsf with ⟨_, hstep⟩ | ⟨hex', _⟩
    · exact hstep s c
    · rw [hex] at hex'
      exact absurd hex' (by simp)

/-- Witness for C6: after the demo run converts `a.wav`, a second run
over the resulting filesystem performs zero conversions. -/
theorem C6_idempotent_witness :
    demoConfig.overwrite = false ∧
      process_directory demoWorld demoConfig =
        PDResult.completed
          { success_count := 1, skipped_count := 0, error_count := 0
            total_input_size := 100, total_output_size := 40 }
          [demoFile, demoOut] [demoFile] ∧
      ((process_directory { demoWorld with files := [demoFile, demoOut] } demoConfig =
            PDResult.noFiles ∨
          ∃ st2 : Stats,
            process_directory { demoWorld with files := [demoFile, demoOut] }
                  demoConfig =
                PDResult.completed st2 [demoFile, demoOut]
                  (discover demoConfig [demoFile, demoOut]) ∧
              st2.success_count = 0) ∧
        (∀ sf ∈ discover demoConfig [demoFile, demoOut],
          fsExists [demoFile, demoOut] (outputPath sf demoConfig.target_ext) = true →
            ∀ (s : Stats) (c : List FPath),
              processFile demoWorld demoConfig
                  { stats := s, fs := [demoFile, demoOut], calls := c } sf =
                Except.ok
                  { stats := { s with skipped_count := s.skipped_count + 1 }
                    fs := [demoFile, demoOut], calls := c })) :=
  ⟨rfl, by decide,
    C6_idempotent demoWorld demoConfig
      { success_count := 1, skipped_count := 0, error_count := 0
        total_input_size := 100, total_output_size := 40 }
      [demoFile, demoOut] [demoFile] rfl (by decide)⟩

end FlacDir
